import Mathlib

/-!
Formal model of the roentgenium launcher, embedded from
`src/roentgenium/entries.py` and `src/roentgenium/gui.py`.

The selection/filter state machine of `SelectableLabelApp` is embedded as a
pure state type `SelState` with the mutators `move_selection` and
`fuzzy_finding`; the catalog loader of `entries.py` is embedded as
`get_entry_items` / `add_entries` / `create_all_entries` over an oracle for
shell-command output.  Python integers are modelled by `Int`, Python lists
by `List`, and the `dict` built in `SelectableLabelApp.__init__`
(`{entry.name: entry for entry in entries}`) by its two observable pieces:
key order (`dictKeys`, first-occurrence order) and value lookup
(`name_to_entry`, last writer wins).
-/

namespace Roentgenium

/-- An entry of the catalog: class `Entry` of `entries.py`.  The
back-reference to the owning `Group` is omitted; the group contributes only
the command template, which is substituted into `command` at construction
time. -/
structure Entry where
  name : String
  command : String
deriving DecidableEq

/-- Substitute `value` for every occurrence of the placeholder `{name}`
(scanned left to right) in a character list. -/
def substName (value : List Char) : List Char → List Char
  | '\x7b' :: 'n' :: 'a' :: 'm' :: 'e' :: '\x7d' :: rest => value ++ substName value rest
  | c :: rest => c :: substName value rest
  | [] => []

/-- Python `str.format` restricted to the `{name}` placeholder, as used in
`Entry.__init__`: every occurrence of `{name}` in the template is replaced
by the given value. -/
def formatName (template value : String) : String :=
  String.mk (substName value.toList template.toList)

/-- `Entry.__init__(entry_name, entry_command)`: stores the name and the
command template with the entry name substituted for `{name}`. -/
def Entry.make (entry_name entry_command : String) : Entry :=
  { name := entry_name, command := formatName entry_command entry_name }

/-- The mutable state of `SelectableLabelApp` that the selection logic
touches: the (re-orderable) entry list, the selected index and the start of
the visible window. -/
structure SelState where
  entries : List Entry
  current_index : Int
  window_start : Int
deriving DecidableEq

/-- The clamped index computed at the top of `move_selection`:
`max(0, min(self.current_index + delta, len(self.entries) - 1))`. -/
def clamp_index (s : SelState) (delta : Int) : Int :=
  max 0 (min (s.current_index + delta) ((s.entries.length : Int) - 1))

/-- `SelectableLabelApp.move_selection(delta)` (gui.py lines 162-185):
clamp the moved index into `[0, len(entries) - 1]`, return unchanged if it
did not move, otherwise store it and scroll `window_start` just enough to
keep the selection inside the `V`-row visible window
(`V = CONFIG.ENTRIES_VISIBLE_ENTRIES`). -/
def move_selection (V delta : Int) (s : SelState) : SelState :=
  if clamp_index s delta = s.current_index then s
  else if clamp_index s delta < s.window_start then
    { entries := s.entries, current_index := clamp_index s delta,
      window_start := clamp_index s delta }
  else if clamp_index s delta ≥ s.window_start + V then
    { entries := s.entries, current_index := clamp_index s delta,
      window_start := clamp_index s delta - V + 1 }
  else
    { entries := s.entries, current_index := clamp_index s delta,
      window_start := s.window_start }

/-- Folding a whole sequence of `move_selection` calls over a state. -/
def run_moves (V : Int) (s : SelState) (deltas : List Int) : SelState :=
  deltas.foldl (fun st d => move_selection V d st) s

/-- Python `str.lower()` for entry names (ASCII case folding; the entry
names handled here are ASCII command names). -/
def pyLower (s : String) : String := String.mk (s.toList.map Char.toLower)

/-- Python `str.startswith(p)` on `s`. -/
def pyStartsWith (s p : String) : Bool := p.toList.isPrefixOf s.toList

/-- The membership test `name.lower().startswith(text.lower())` used by the
prefix stage of `fuzzy_finding`. -/
def isPrefixMatch (text name : String) : Bool :=
  pyStartsWith (pyLower name) (pyLower text)

/-- Key order of a Python dict built by successive insertion
(`{entry.name: entry for entry in entries}`): every name at its first
occurrence. -/
def dedupFirst : List String → List String
  | [] => []
  | n :: rest => n :: (dedupFirst rest).filter (fun m => m ≠ n)

/-- `self.name_to_entry.keys()`: the catalog names in first-occurrence
order. -/
def dictKeys (catalog : List Entry) : List String :=
  dedupFirst (catalog.map Entry.name)

/-- `self.name_to_entry[n]`: dict assignment overwrites, so the lookup
returns the last catalog entry bearing the name. -/
def name_to_entry (catalog : List Entry) (n : String) : Option Entry :=
  (catalog.filter (fun e => e.name = n)).getLast?

/-- The comprehension `prefix_matches` of `fuzzy_finding`: names whose
lowercase form starts with the lowercase query, in key order. -/
def prefix_matches (keys : List String) (text : String) : List String :=
  keys.filter (fun n => isPrefixMatch text n)

/-- The comprehension `rest` of `fuzzy_finding`: names not contained in
`prefix_matches`. -/
def restNames (keys : List String) (text : String) : List String :=
  keys.filter (fun n => !(prefix_matches keys text).contains n)

/-- Descending-score order on candidate names, for a given scorer and
query. -/
def scoreGE (scorer : String → String → Nat) (text : String) (a b : String) : Prop :=
  scorer text b ≤ scorer text a

instance (scorer : String → String → Nat) (text : String) :
    DecidableRel (scoreGE scorer text) := fun a b => by
  unfold scoreGE; infer_instance

instance (scorer : String → String → Nat) (text : String) :
    IsTotal String (scoreGE scorer text) :=
  ⟨fun a b => (Nat.le_total (scorer text a) (scorer text b)).symm⟩

instance (scorer : String → String → Nat) (text : String) :
    IsTrans String (scoreGE scorer text) :=
  ⟨fun _ _ _ hab hbc => Nat.le_trans hbc hab⟩

/-- Modelled from the documented behaviour of `rapidfuzz.process.extract`
(an external library, so its `partial_ratio` scorer is abstracted as an
arbitrary `scorer`): the candidates sorted stably by descending score,
truncated to the top `limit` (`limit = CONFIG.FUZZY_LIMIT`). -/
def fuzzy_matches (scorer : String → String → Nat) (limit : Nat)
    (keys : List String) (text : String) : List String :=
  (List.insertionSort (scoreGE scorer text) (restNames keys text)).take limit

/-- `final = prefix_matches + [r[0] for r in fuzzy_matches]`. -/
def final_names (scorer : String → String → Nat) (limit : Nat)
    (keys : List String) (text : String) : List String :=
  prefix_matches keys text ++ fuzzy_matches scorer limit keys text

/-- The new `self.entries` after `fuzzy_finding(text)`, as a function of
the original catalog only (the dict is built once in `__init__` and never
rebuilt): `[self.name_to_entry[name] for name in final]`. -/
def entriesFor (scorer : String → String → Nat) (limit : Nat)
    (catalog : List Entry) (text : String) : List Entry :=
  (final_names scorer limit (dictKeys catalog) text).filterMap (name_to_entry catalog)

/-- `SelectableLabelApp.fuzzy_finding(text)` (gui.py lines 200-227) as a
state transition: replace the entry list, reset `current_index` to `-1`
(leaving `window_start` untouched) and call
`move_selection(CONFIG.ENTRIES_DELTA)`. -/
def fuzzy_finding (scorer : String → String → Nat) (limit : Nat)
    (V delta : Int) (catalog : List Entry) (s : SelState) (text : String) :
    SelState :=
  move_selection V delta
    { entries := entriesFor scorer limit catalog text, current_index := -1,
      window_start := s.window_start }

/-- The window invariant of spec section 3:
`window_start ≤ current_index < window_start + VISIBLE_COUNT`. -/
def invariant (V : Int) (s : SelState) : Prop :=
  s.window_start ≤ s.current_index ∧ s.current_index < s.window_start + V

instance (V : Int) (s : SelState) : Decidable (invariant V s) := by
  unfold invariant; infer_instance

/-- A concrete two-entry state used by the C2 witness. -/
def sampleState : SelState :=
  { entries := [Entry.make "a" "run", Entry.make "b" "run"], current_index := 1,
    window_start := 0 }

/-- The dynamic type of the `name` field of a TOML entry declaration: a
string, a list of strings, or any other TOML shape (`other`). -/
inductive NameField where
  | str : String → NameField
  | list : List String → NameField
  | other : NameField
deriving DecidableEq

/-- One entry declaration of the entries file: its `name` value, the
`name_is_command` marker and the group's `command` template as passed to
`Group.add_entries`. -/
structure EntryDecl where
  name : NameField
  name_is_command : Bool
  command : String
deriving DecidableEq

/-- One group of the entries file, restricted to the fields the loader's
entry construction reads (the `input_field` table is irrelevant to entry
creation and omitted). -/
structure GroupDecl where
  name : String
  description : String
  entry : List EntryDecl
deriving DecidableEq

/-- Python `str.strip()`: drop leading and trailing whitespace. -/
def pyStrip (s : String) : String :=
  String.mk (((s.toList.dropWhile Char.isWhitespace).reverse.dropWhile
    Char.isWhitespace).reverse)

/-- Split a character list at newline characters, keeping empty segments:
Python `str.split("\n")` (so the empty string yields one empty segment). -/
def splitNlChars : List Char → List (List Char)
  | [] => [[]]
  | c :: rest =>
    if c = '\n' then [] :: splitNlChars rest
    else
      match splitNlChars rest with
      | [] => [[c]]
      | h :: t => (c :: h) :: t

/-- Python `s.strip().split("\n")`. -/
def stripSplitLines (s : String) : List String :=
  (splitNlChars (pyStrip s).toList).map String.mk

/-- `Group.run_command(command)`: run the generator through the shell and
return `stdout.strip().split("\n")`.  The subprocess is external, so its
standard output is the oracle `stdout`, fed the raw `name` value that the
code passes to `subprocess.run`. -/
def run_command (stdout : NameField → String) (command : NameField) :
    List String :=
  stripSplitLines (stdout command)

/-- The inner `get_entry_items` of `Group.add_entries` (entries.py lines
40-52): command-marked names are expanded through the shell, a list is
taken as is, a string is wrapped in a singleton, and any other shape raises
`ValueError("Invalid entry name type")` (modelled as `Except.error`). -/
def get_entry_items (stdout : NameField → String) (entry : EntryDecl) :
    Except String (List String) :=
  if entry.name_is_command then
    Except.ok (run_command stdout entry.name)
  else
    match entry.name with
    | NameField.list l => Except.ok l
    | NameField.str s => Except.ok [s]
    | NameField.other => Except.error "Invalid entry name type"

/-- `Group.add_entries(entries)`: append one `Entry` per generated name, in
generation order, each built from the group's command template. -/
def add_entries (stdout : NameField → String) (acc : List Entry)
    (entry : EntryDecl) : Except String (List Entry) :=
  match get_entry_items stdout entry with
  | Except.error e => Except.error e
  | Except.ok items =>
      Except.ok (acc ++ items.map (fun it => Entry.make it entry.command))

/-- The per-group loop of `create_all_entries`: add every declaration of a
group to the group's entry list, aborting at the first invalid one. -/
def add_entries_all (stdout : NameField → String) (decls : List EntryDecl)
    (acc : List Entry) : Except String (List Entry) :=
  match decls with
  | [] => Except.ok acc
  | d :: rest =>
    match add_entries stdout acc d with
    | Except.error e => Except.error e
    | Except.ok acc2 => add_entries_all stdout rest acc2

/-- `create_all_entries` (entries.py lines 127-158) restricted to entry
construction: concatenate the groups' entries in group-declaration order,
propagating the first configuration error.  This runs at catalog-load time,
before the GUI object is constructed (cli.py line 39 precedes line 51). -/
def create_all_entries (stdout : NameField → String) :
    List GroupDecl → Except String (List Entry)
  | [] => Except.ok []
  | g :: rest =>
    match add_entries_all stdout g.entry [] with
    | Except.error e => Except.error e
    | Except.ok ge =>
      match create_all_entries stdout rest with
      | Except.error e => Except.error e
      | Except.ok res => Except.ok (ge ++ res)

/-! ### Helper lemmas -/

/-- `move_selection` never changes the entry list. -/
theorem move_selection_entries (V delta : Int) (s : SelState) :
    (move_selection V delta s).entries = s.entries := by
  unfold move_selection
  split_ifs <;> rfl

/-- One `move_selection` call preserves the window invariant: the three
scroll branches re-establish it outright, and the early return keeps the
state unchanged. -/
theorem move_selection_invariant (V delta : Int) (s : SelState)
    (hinv : invariant V s) : invariant V (move_selection V delta s) := by
  unfold move_selection
  unfold invariant at hinv ⊢
  split_ifs with h1 h2 h3
  · exact hinv
  all_goals simp only []
  · omega
  · omega
  · omega

/-- Membership is unchanged by first-occurrence deduplication. -/
theorem mem_dedupFirst {l : List String} {x : String} :
    x ∈ dedupFirst l ↔ x ∈ l := by
  induction l with
  | nil => simp [dedupFirst]
  | cons n rest ih =>
    by_cases hx : x = n <;> simp [dedupFirst, List.mem_filter, ih, hx]

/-- First-occurrence deduplication keeps a sublist of the original list. -/
theorem dedupFirst_sublist (l : List String) : List.Sublist (dedupFirst l) l := by
  induction l with
  | nil => simp [dedupFirst]
  | cons n rest ih =>
    exact List.Sublist.cons₂ n ((List.filter_sublist _).trans ih)

/-- First-occurrence deduplication yields pairwise-distinct names. -/
theorem nodup_dedupFirst (l : List String) : (dedupFirst l).Nodup := by
  induction l with
  | nil => simp [dedupFirst]
  | cons n rest ih =>
    refine List.Nodup.cons ?_ (ih.filter _)
    intro hmem
    rcases List.mem_filter.mp hmem with ⟨_, hne⟩
    simp at hne

/-- On a duplicate-free list, first-occurrence deduplication is the
identity. -/
theorem dedupFirst_eq_self {l : List String} (h : l.Nodup) : dedupFirst l = l := by
  induction l with
  | nil => rfl
  | cons n rest ih =>
    have h1 : n ∉ rest := (List.nodup_cons.mp h).1
    have h2 : rest.Nodup := (List.nodup_cons.mp h).2
    have hf : (dedupFirst rest).filter (fun m => m ≠ n) = dedupFirst rest := by
      apply List.filter_eq_self.mpr
      intro a ha
      have hmem : a ∈ rest := mem_dedupFirst.mp ha
      simp only [ne_eq, decide_eq_true_eq]
      exact fun he => h1 (he ▸ hmem)
    simp only [dedupFirst]
    rw [hf, ih h2]

/-- A successful dict lookup returns a catalog entry bearing the looked-up
name. -/
theorem name_to_entry_spec {catalog : List Entry} {n : String} {e : Entry}
    (h : name_to_entry catalog n = some e) : e ∈ catalog ∧ e.name = n := by
  unfold name_to_entry at h
  have hmem := List.mem_of_getLast?_eq_some h
  rcases List.mem_filter.mp hmem with ⟨h1, h2⟩
  exact ⟨h1, by simpa using h2⟩

/-- Every catalog name has a dict entry. -/
theorem name_to_entry_exists {catalog : List Entry} {n : String}
    (h : n ∈ catalog.map Entry.name) : ∃ e, name_to_entry catalog n = some e := by
  rcases List.mem_map.mp h with ⟨e, he, hn⟩
  have hne : catalog.filter (fun x => x.name = n) ≠ [] := by
    intro hnil
    have hdrop := List.filter_eq_nil_iff.mp hnil e he
    simp [hn] at hdrop
  unfold name_to_entry
  rcases Option.isSome_iff_exists.mp (List.getLast?_isSome.mpr hne) with ⟨e2, h2⟩
  exact ⟨e2, h2⟩

/-- Dict construction is last-writer-wins: when no later entry bears the
same name, the lookup returns exactly that entry. -/
theorem name_to_entry_last {l1 l2 : List Entry} {e : Entry}
    (h2 : ∀ x ∈ l2, x.name ≠ e.name) :
    name_to_entry (l1 ++ e :: l2) e.name = some e := by
  unfold name_to_entry
  rw [List.filter_append]
  have hfl2 : l2.filter (fun x => x.name = e.name) = [] :=
    List.filter_eq_nil_iff.mpr (fun x hx => by simpa using h2 x hx)
  have hcons : (e :: l2).filter (fun x => x.name = e.name) = [e] := by
    simp [List.filter_cons, hfl2]
  rw [hcons]
  exact List.getLast?_concat _

/-- Membership in the prefix-match stage. -/
theorem mem_prefix_matches {keys : List String} {text n : String} :
    n ∈ prefix_matches keys text ↔ n ∈ keys ∧ isPrefixMatch text n = true := by
  unfold prefix_matches
  simp [List.mem_filter]

/-- Membership in the remainder handed to the fuzzy stage. -/
theorem mem_restNames {keys : List String} {text n : String} :
    n ∈ restNames keys text ↔ n ∈ keys ∧ n ∉ prefix_matches keys text := by
  unfold restNames
  simp [List.mem_filter, List.elem_iff]

/-- Remainder names do not prefix-match the query. -/
theorem restNames_no_match {keys : List String} {text n : String}
    (h : n ∈ restNames keys text) : isPrefixMatch text n = false := by
  rcases mem_restNames.mp h with ⟨hk, hnp⟩
  cases hb : isPrefixMatch text n
  · rfl
  · exact absurd (mem_prefix_matches.mpr ⟨hk, hb⟩) hnp

/-- Fuzzy matches are drawn from the remainder. -/
theorem mem_fuzzy_matches {scorer : String → String → Nat} {limit : Nat}
    {keys : List String} {text n : String}
    (h : n ∈ fuzzy_matches scorer limit keys text) : n ∈ restNames keys text := by
  unfold fuzzy_matches at h
  have h2 := (List.take_sublist _ _).subset h
  exact (List.perm_insertionSort _ _).mem_iff.mp h2

/-- The fuzzy stage output is in descending-score order. -/
theorem fuzzy_matches_sorted (scorer : String → String → Nat) (limit : Nat)
    (keys : List String) (text : String) :
    (fuzzy_matches scorer limit keys text).Pairwise (scoreGE scorer text) := by
  unfold fuzzy_matches
  exact List.Pairwise.sublist (List.take_sublist _ _) (List.sorted_insertionSort _ _)

/-- The fuzzy stage returns at most `limit` names. -/
theorem fuzzy_matches_length (scorer : String → String → Nat) (limit : Nat)
    (keys : List String) (text : String) :
    (fuzzy_matches scorer limit keys text).length ≤ limit := by
  unfold fuzzy_matches
  rw [List.length_take]
  exact Nat.min_le_left _ _

/-- Every name produced by a filter pass is a dict key. -/
theorem final_names_subset_keys {scorer : String → String → Nat} {limit : Nat}
    {keys : List String} {text n : String}
    (h : n ∈ final_names scorer limit keys text) : n ∈ keys := by
  unfold final_names at h
  rcases List.mem_append.mp h with h | h
  · exact (mem_prefix_matches.mp h).1
  · exact (mem_restNames.mp (mem_fuzzy_matches h)).1

/-- Looking every name of a list up in the dict and taking the names of the
results gives the list back, provided every lookup succeeds. -/
theorem map_name_filterMap_lookup {ns : List String} {catalog : List Entry}
    (h : ∀ n ∈ ns, ∃ e, name_to_entry catalog n = some e) :
    (ns.filterMap (name_to_entry catalog)).map Entry.name = ns := by
  induction ns with
  | nil => rfl
  | cons n rest ih =>
    rcases h n (List.mem_cons_self n rest) with ⟨e, he⟩
    have hname := (name_to_entry_spec he).2
    simp only [List.filterMap_cons, he, List.map_cons]
    rw [ih (fun m hm => h m (List.mem_cons_of_mem n hm)), hname]

/-- The names of the entry list after a filter pass are exactly `final`. -/
theorem names_entriesFor (scorer : String → String → Nat) (limit : Nat)
    (catalog : List Entry) (text : String) :
    (entriesFor scorer limit catalog text).map Entry.name
      = final_names scorer limit (dictKeys catalog) text := by
  apply map_name_filterMap_lookup
  intro n hn
  exact name_to_entry_exists (mem_dedupFirst.mp (final_names_subset_keys hn))

/-- The empty query prefix-matches every name. -/
theorem isPrefixMatch_empty (n : String) : isPrefixMatch "" n = true := by
  unfold isPrefixMatch pyStartsWith
  have h : (pyLower "").toList = [] := rfl
  rw [h]
  exact List.isPrefixOf_nil_left

/-- With the empty query the prefix stage keeps every key. -/
theorem prefix_matches_empty (keys : List String) :
    prefix_matches keys "" = keys :=
  List.filter_eq_self.mpr (fun n _ => isPrefixMatch_empty n)

/-- With the empty query the fuzzy remainder is empty. -/
theorem restNames_empty (keys : List String) : restNames keys "" = [] := by
  apply List.filter_eq_nil_iff.mpr
  intro n hn
  rw [prefix_matches_empty]
  simp [List.elem_iff, hn]

/-- On a catalog with pairwise-distinct names, looking every name up in the
dict returns the catalog itself. -/
theorem filterMap_lookup_self {catalog : List Entry}
    (h : (catalog.map Entry.name).Nodup) :
    (catalog.map Entry.name).filterMap (name_to_entry catalog) = catalog := by
  induction catalog with
  | nil => rfl
  | cons e rest ih =>
    have hm : (e.name :: rest.map Entry.name).Nodup := by simpa using h
    have h1 : e.name ∉ rest.map Entry.name := (List.nodup_cons.mp hm).1
    have h2 : (rest.map Entry.name).Nodup := (List.nodup_cons.mp hm).2
    have he : name_to_entry (e :: rest) e.name = some e := by
      have hx : ∀ x ∈ rest, x.name ≠ e.name := by
        intro x hxm he2
        exact h1 (he2 ▸ List.mem_map_of_mem Entry.name hxm)
      have hl := @name_to_entry_last ([] : List Entry) rest e hx
      simpa using hl
    have hcong : ∀ n ∈ rest.map Entry.name,
        name_to_entry (e :: rest) n = name_to_entry rest n := by
      intro n hn
      have hne : (decide (e.name = n)) = false := by
        simp only [decide_eq_false_iff_not]
        intro he2
        rw [he2] at h1
        exact h1 hn
      unfold name_to_entry
      simp [List.filter_cons, hne]
    simp only [List.map_cons, List.filterMap_cons, he]
    rw [List.filterMap_congr hcong, ih h2]

/-- The filter output has pairwise-distinct names whenever the keys do. -/
theorem nodup_final_names (scorer : String → String → Nat) (limit : Nat)
    {keys : List String} (hk : keys.Nodup) (text : String) :
    (final_names scorer limit keys text).Nodup := by
  unfold final_names
  rw [List.nodup_append]
  refine ⟨hk.filter _, ?_, ?_⟩
  · unfold fuzzy_matches
    have hrest : (restNames keys text).Nodup := hk.filter _
    have hsort : (List.insertionSort (scoreGE scorer text) (restNames keys text)).Nodup :=
      ((List.perm_insertionSort _ _).nodup_iff).mpr hrest
    exact (List.take_sublist _ _).nodup hsort
  · intro a ha hf
    have h1 := (mem_prefix_matches.mp ha).2
    have h2 := restNames_no_match (mem_fuzzy_matches hf)
    rw [h1] at h2
    exact Bool.noConfusion h2

/-- `get_entry_items` only ever fails with the `ValueError` message. -/
theorem get_entry_items_error_eq {stdout : NameField → String} {d : EntryDecl}
    {e : String} (h : get_entry_items stdout d = Except.error e) :
    e = "Invalid entry name type" := by
  obtain ⟨nf, b, c⟩ := d
  cases b with
  | true => exact Except.noConfusion h
  | false =>
    cases nf with
    | str s => exact Except.noConfusion h
    | list l => exact Except.noConfusion h
    | other =>
      injection h with h2
      exact h2.symm

/-- `add_entries` only ever fails with the `ValueError` message. -/
theorem add_entries_error_eq {stdout : NameField → String} {acc : List Entry}
    {d : EntryDecl} {e : String} (h : add_entries stdout acc d = Except.error e) :
    e = "Invalid entry name type" := by
  unfold add_entries at h
  cases hg : get_entry_items stdout d with
  | error e2 =>
    rw [hg] at h
    injection h with h2
    exact h2 ▸ get_entry_items_error_eq hg
  | ok items =>
    rw [hg] at h
    exact Except.noConfusion h

/-- The per-group loop only ever fails with the `ValueError` message. -/
theorem add_entries_all_error_eq {stdout : NameField → String}
    {ds : List EntryDecl} {acc : List Entry} {e : String}
    (h : add_entries_all stdout ds acc = Except.error e) :
    e = "Invalid entry name type" := by
  induction ds generalizing acc with
  | nil => exact Except.noConfusion h
  | cons d rest ih =>
    simp only [add_entries_all] at h
    cases hg : add_entries stdout acc d with
    | error e2 =>
      rw [hg] at h
      injection h with h2
      exact h2 ▸ add_entries_error_eq hg
    | ok acc2 =>
      rw [hg] at h
      exact ih h

/-- A malformed declaration anywhere in a group's declaration list makes
the per-group loop fail. -/
theorem add_entries_all_malformed (stdout : NameField → String) (c : String)
    (ds1 ds2 : List EntryDecl) (acc : List Entry) :
    add_entries_all stdout (ds1 ++ ⟨NameField.other, false, c⟩ :: ds2) acc
      = Except.error "Invalid entry name type" := by
  induction ds1 generalizing acc with
  | nil => rfl
  | cons d rest ih =>
    simp only [List.cons_append, add_entries_all]
    cases hg : add_entries stdout acc d with
    | error e =>
      rw [add_entries_error_eq hg]
    | ok acc2 =>
      exact ih acc2

/-- A malformed declaration in any group makes the whole catalog load
fail. -/
theorem create_all_entries_malformed (stdout : NameField → String)
    (gs1 gs2 : List GroupDecl) (gname gdesc : String)
    (ds1 ds2 : List EntryDecl) (c : String) :
    create_all_entries stdout
        (gs1 ++ ⟨gname, gdesc, ds1 ++ ⟨NameField.other, false, c⟩ :: ds2⟩ :: gs2)
      = Except.error "Invalid entry name type" := by
  induction gs1 with
  | nil =>
    simp only [List.nil_append, create_all_entries]
    rw [add_entries_all_malformed]
  | cons g rest ih =>
    simp only [List.cons_append, create_all_entries]
    cases hg : add_entries_all stdout g.entry [] with
    | error e =>
      rw [add_entries_all_error_eq hg]
    | ok ge =>
      rw [List.append_eq, ih]

/-! ### The claims -/

/-- C1 counterexample: the claim quantifies over every starting state, but a
starting state that violates the window invariant and whose `move_selection`
call takes the early-return branch (the clamped index equals the current
one) is left unchanged, still violating the invariant.  Here: one entry,
`current_index = 0`, `window_start = 1`, `VISIBLE_COUNT = 1`, one call with
`delta = 1`. -/
theorem C1_cex_invariant_not_restored :
    ([Entry.make "a" "run"] ≠ ([] : List Entry)) ∧ (1 : Int) ≥ 1 ∧
      ¬ invariant 1 (run_moves 1
        { entries := [Entry.make "a" "run"], current_index := 0, window_start := 1 } [1]) := by
  refine ⟨by decide, by decide, by decide⟩

/-- C1 (amended): for a non-empty entry list, `VISIBLE_COUNT ≥ 1`, and a
starting state that satisfies the window invariant, after every sequence of
`move_selection` calls (hence after each call of any sequence) the invariant
`window_start ≤ current_index < window_start + VISIBLE_COUNT` still holds. -/
theorem C1_window_invariant (V : Int) (hV : 1 ≤ V) (s : SelState)
    (hne : s.entries ≠ []) (hinv : invariant V s) (deltas : List Int) :
    invariant V (run_moves V s deltas) := by
  induction deltas generalizing s with
  | nil => exact hinv
  | cons d rest ih =>
    have hne2 : (move_selection V d s).entries ≠ [] := by
      rw [move_selection_entries]; exact hne
    exact ih (move_selection V d s) hne2 (move_selection_invariant V d s hinv)

/-- Witness for C1: a concrete run satisfying all hypotheses. -/
theorem C1_window_invariant_witness :
    ((1 : Int) ≤ 1 ∧
      ({ entries := [Entry.make "a" "run"], current_index := 0, window_start := 0 } : SelState).entries ≠ [] ∧
      invariant 1 { entries := [Entry.make "a" "run"], current_index := 0, window_start := 0 }) ∧
    invariant 1 (run_moves 1
      { entries := [Entry.make "a" "run"], current_index := 0, window_start := 0 } [3, -7, 1]) :=
  ⟨⟨by decide, by decide, by decide⟩,
    C1_window_invariant 1 (by decide) _ (by decide) (by decide) [3, -7, 1]⟩

/-- C2 counterexample: on an empty entry list the clamp
`max(0, min(current_index + delta, len - 1))` collapses to `0`, so
`move_selection(1)` from `current_index = -1` sets `current_index = 0`,
which lies outside the (empty) range `[0, len(entries) - 1] = [0, -1]`. -/
theorem C2_cex_empty_list :
    ¬ (0 ≤ (move_selection 1 1
          { entries := [], current_index := -1, window_start := 0 }).current_index ∧
        (move_selection 1 1
          { entries := [], current_index := -1, window_start := 0 }).current_index ≤
          (([] : List Entry).length : Int) - 1) := by
  decide

/-- C2 (amended): for a NON-EMPTY entry list, `move_selection(delta)` always
leaves `current_index` inside `[0, len(entries) - 1]`, for every starting
`current_index`, every `delta` and every visible count. -/
theorem C2_index_in_range (V delta : Int) (s : SelState) (hne : s.entries ≠ []) :
    0 ≤ (move_selection V delta s).current_index ∧
      (move_selection V delta s).current_index ≤ (s.entries.length : Int) - 1 := by
  have hlen : 1 ≤ (s.entries.length : Int) := by
    have h0 : 0 < s.entries.length := List.length_pos.mpr hne
    exact_mod_cast h0
  have hclamp : 0 ≤ clamp_index s delta ∧
      clamp_index s delta ≤ (s.entries.length : Int) - 1 := by
    unfold clamp_index; omega
  unfold move_selection
  split_ifs with h1 h2 h3
  · constructor
    · rw [← h1]; exact hclamp.1
    · rw [← h1]; exact hclamp.2
  · exact hclamp
  · exact hclamp
  · exact hclamp

/-- Witness for C2: a concrete state with a huge negative delta. -/
theorem C2_index_in_range_witness :
    sampleState.entries ≠ [] ∧
    (0 ≤ (move_selection 3 (-100) sampleState).current_index ∧
      (move_selection 3 (-100) sampleState).current_index ≤
        (sampleState.entries.length : Int) - 1) :=
  ⟨by decide, C2_index_in_range 3 (-100) sampleState (by decide)⟩

/-- C3: after a filter pass, the resulting entry names are the prefix
matches (exactly the dict keys whose lowercase form starts with the
lowercase query, kept in a sublist of the original catalog name order)
followed by a remainder `F` of non-matching names ordered by descending
fuzzy score. -/
theorem C3_prefix_before_fuzzy (scorer : String → String → Nat) (limit : Nat)
    (catalog : List Entry) (text : String) :
    ∃ F, (entriesFor scorer limit catalog text).map Entry.name
        = (dictKeys catalog).filter (fun n => isPrefixMatch text n) ++ F
      ∧ List.Sublist ((dictKeys catalog).filter (fun n => isPrefixMatch text n))
          (catalog.map Entry.name)
      ∧ (∀ n ∈ (dictKeys catalog).filter (fun n => isPrefixMatch text n),
          isPrefixMatch text n = true)
      ∧ (∀ n ∈ F, isPrefixMatch text n = false)
      ∧ F.Pairwise (fun a b => scorer text b ≤ scorer text a) := by
  refine ⟨fuzzy_matches scorer limit (dictKeys catalog) text, ?_, ?_, ?_, ?_, ?_⟩
  · rw [names_entriesFor]; rfl
  · exact (List.filter_sublist _).trans (dedupFirst_sublist _)
  · intro n hn
    exact (List.mem_filter.mp hn).2
  · intro n hn
    exact restNames_no_match (mem_fuzzy_matches hn)
  · exact fuzzy_matches_sorted scorer limit (dictKeys catalog) text

/-- C4 counterexample: the result of `filter("")` is not the entire catalog
when two catalog entries share a name — the name-to-entry dict collapses
them, keeping only the last. -/
theorem C4_cex_duplicate_names :
    entriesFor (fun _ _ => 0) 30 [Entry.mk "x" "c1", Entry.mk "x" "c2"] ""
      ≠ [Entry.mk "x" "c1", Entry.mk "x" "c2"] := by
  decide

/-- C4 (amended): `filter("")` hands the fuzzy stage an empty remainder
(contributing no entries) and its prefix-matching part is the full key
list, i.e. the catalog names deduplicated to first occurrences; for a
catalog with pairwise-distinct names this is the entire catalog in original
order. -/
theorem C4_empty_query (scorer : String → String → Nat) (limit : Nat)
    (catalog : List Entry) :
    restNames (dictKeys catalog) "" = []
    ∧ final_names scorer limit (dictKeys catalog) "" = dictKeys catalog
    ∧ ((catalog.map Entry.name).Nodup →
        entriesFor scorer limit catalog "" = catalog) := by
  have hrest : restNames (dictKeys catalog) "" = [] := restNames_empty _
  have hfin : final_names scorer limit (dictKeys catalog) "" = dictKeys catalog := by
    unfold final_names fuzzy_matches
    rw [hrest, prefix_matches_empty]
    simp
  refine ⟨hrest, hfin, ?_⟩
  intro hnd
  unfold entriesFor
  rw [hfin]
  unfold dictKeys
  rw [dedupFirst_eq_self hnd]
  exact filterMap_lookup_self hnd

/-- Witness for C4: on a two-entry duplicate-free catalog, `filter("")`
returns the catalog itself. -/
theorem C4_empty_query_witness :
    (([Entry.mk "a" "ra", Entry.mk "b" "rb"].map Entry.name).Nodup) ∧
    entriesFor (fun _ _ => 0) 30 [Entry.mk "a" "ra", Entry.mk "b" "rb"] ""
      = [Entry.mk "a" "ra", Entry.mk "b" "rb"] :=
  ⟨by decide, (C4_empty_query (fun _ _ => 0) 30 _).2.2 (by decide)⟩

/-- C5: the filter result decomposes into prefix matches followed by at
most `FUZZY_LIMIT` fuzzy (non-prefix) matches. -/
theorem C5_fuzzy_limit (scorer : String → String → Nat) (limit : Nat)
    (catalog : List Entry) (text : String) :
    ∃ P F, entriesFor scorer limit catalog text = P ++ F
      ∧ (∀ e ∈ P, isPrefixMatch text e.name = true)
      ∧ (∀ e ∈ F, isPrefixMatch text e.name = false)
      ∧ F.length ≤ limit := by
  refine ⟨(prefix_matches (dictKeys catalog) text).filterMap (name_to_entry catalog),
    (fuzzy_matches scorer limit (dictKeys catalog) text).filterMap (name_to_entry catalog),
    ?_, ?_, ?_, ?_⟩
  · unfold entriesFor final_names
    exact List.filterMap_append _ _ _
  · intro e he
    rcases List.mem_filterMap.mp he with ⟨n, hn, hl⟩
    rw [(name_to_entry_spec hl).2]
    exact (mem_prefix_matches.mp hn).2
  · intro e he
    rcases List.mem_filterMap.mp he with ⟨n, hn, hl⟩
    rw [(name_to_entry_spec hl).2]
    exact restNames_no_match (mem_fuzzy_matches hn)
  · exact Nat.le_trans (List.length_filterMap_le _ _) (fuzzy_matches_length _ _ _ _)

/-- C6 counterexample: `fuzzy_finding` moves by `CONFIG.ENTRIES_DELTA`, not
by 1.  With `delta = 2` and a two-entry result of `filter("")`, the index
after the pass is `clamp(-1 + 2) = 1`, not 0. -/
theorem C6_cex_delta_two :
    entriesFor (fun _ _ => 0) 30 [Entry.mk "a" "r", Entry.mk "b" "r"] "" ≠ [] ∧
    (fuzzy_finding (fun _ _ => 0) 30 3 2 [Entry.mk "a" "r", Entry.mk "b" "r"]
        { entries := [], current_index := 0, window_start := 0 } "").current_index ≠ 0 := by
  refine ⟨by decide, by decide⟩

/-- C6 (amended): given the default navigation step `ENTRIES_DELTA = 1`,
every filter pass with a non-empty result resets `current_index` to `-1`
and the subsequent `move_selection(1)` lands on index 0, so the first row
is selected after the pass. -/
theorem C6_first_row_selected (scorer : String → String → Nat) (limit : Nat)
    (V : Int) (catalog : List Entry) (s : SelState) (q : String)
    (hne : entriesFor scorer limit catalog q ≠ []) :
    (fuzzy_finding scorer limit V 1 catalog s q).current_index = 0 := by
  have hlen : 1 ≤ ((entriesFor scorer limit catalog q).length : Int) := by
    have h0 : 0 < (entriesFor scorer limit catalog q).length := List.length_pos.mpr hne
    exact_mod_cast h0
  unfold fuzzy_finding move_selection
  have hc : clamp_index
      { entries := entriesFor scorer limit catalog q, current_index := -1,
        window_start := s.window_start } 1 = 0 := by
    show max 0 (min (-1 + 1) (((entriesFor scorer limit catalog q).length : Int) - 1)) = 0
    omega
  rw [hc]
  split_ifs with h1 h2 h3
  · have h1x : (0 : Int) = -1 := h1
    exact absurd h1x (by decide)
  · rfl
  · rfl
  · rfl

/-- Witness for C6: one entry, empty query. -/
theorem C6_first_row_selected_witness :
    entriesFor (fun _ _ => 0) 30 [Entry.mk "a" "r"] "" ≠ [] ∧
    (fuzzy_finding (fun _ _ => 0) 30 3 1 [Entry.mk "a" "r"]
        { entries := [], current_index := 0, window_start := 0 } "").current_index = 0 :=
  ⟨by decide, C6_first_row_selected (fun _ _ => 0) 30 3 [Entry.mk "a" "r"]
    { entries := [], current_index := 0, window_start := 0 } "" (by decide)⟩

/-- C7: an entry's executable command is the group's template with the
`{name}` placeholder substituted; concretely, `"echo {name}"` with name
`"foo"` yields the literal command `"echo foo"`. -/
theorem C7_command_substitution (name cmd : String) :
    (Entry.make name cmd).command = formatName cmd name
    ∧ (Entry.make "foo" "echo {name}").command = "echo foo" :=
  ⟨rfl, by decide⟩

/-- C8: a string name yields one entry, a list yields one entry per element
in order, a command-marked name yields one entry per stripped stdout line,
any other shape fails with the configuration error, and such a malformed
declaration anywhere makes the whole catalog load return the error (the
load runs before the UI is constructed). -/
theorem C8_entry_declaration_shapes (stdout : NameField → String)
    (s c gname gdesc : String) (l : List String) (nf : NameField)
    (acc : List Entry) (gs1 gs2 : List GroupDecl) (ds1 ds2 : List EntryDecl) :
    get_entry_items stdout ⟨NameField.str s, false, c⟩ = Except.ok [s]
    ∧ get_entry_items stdout ⟨NameField.list l, false, c⟩ = Except.ok l
    ∧ get_entry_items stdout ⟨nf, true, c⟩ = Except.ok (run_command stdout nf)
    ∧ get_entry_items stdout ⟨NameField.other, false, c⟩
        = Except.error "Invalid entry name type"
    ∧ add_entries stdout acc ⟨NameField.str s, false, c⟩
        = Except.ok (acc ++ [Entry.make s c])
    ∧ add_entries stdout acc ⟨NameField.list l, false, c⟩
        = Except.ok (acc ++ l.map (fun it => Entry.make it c))
    ∧ add_entries stdout acc ⟨nf, true, c⟩
        = Except.ok (acc ++ (run_command stdout nf).map (fun it => Entry.make it c))
    ∧ create_all_entries stdout
        (gs1 ++ ⟨gname, gdesc, ds1 ++ ⟨NameField.other, false, c⟩ :: ds2⟩ :: gs2)
      = Except.error "Invalid entry name type" := by
  refine ⟨rfl, rfl, rfl, rfl, rfl, rfl, rfl, ?_⟩
  exact create_all_entries_malformed stdout gs1 gs2 gname gdesc ds1 ds2 c

/-- C9: after any filter pass the entry list holds at most one entry per
distinct name; every entry of the result is what the dict resolves its name
to; and the dict resolves a name to the last catalog entry bearing it. -/
theorem C9_duplicate_names_collapse (scorer : String → String → Nat)
    (limit : Nat) (catalog : List Entry) (text : String) :
    ((entriesFor scorer limit catalog text).map Entry.name).Nodup
    ∧ (∀ e ∈ entriesFor scorer limit catalog text,
        name_to_entry catalog e.name = some e)
    ∧ (∀ (l1 l2 : List Entry) (e : Entry), catalog = l1 ++ e :: l2 →
        (∀ x ∈ l2, x.name ≠ e.name) → name_to_entry catalog e.name = some e) := by
  refine ⟨?_, ?_, ?_⟩
  · rw [names_entriesFor]
    exact nodup_final_names scorer limit (nodup_dedupFirst _) text
  · intro e he
    rcases List.mem_filterMap.mp he with ⟨n, hn, hl⟩
    rw [(name_to_entry_spec hl).2]
    exact hl
  · intro l1 l2 e hcat hne
    subst hcat
    exact name_to_entry_last hne

/-- Witness for C9: a duplicated name resolves to the last entry bearing
it. -/
theorem C9_duplicate_names_collapse_witness :
    name_to_entry [Entry.mk "x" "c1", Entry.mk "x" "c2"] (Entry.mk "x" "c2").name
      = some (Entry.mk "x" "c2") :=
  (C9_duplicate_names_collapse (fun _ _ => 0) 30
      [Entry.mk "x" "c1", Entry.mk "x" "c2"] "").2.2
    [Entry.mk "x" "c1"] [] (Entry.mk "x" "c2") rfl (by decide)

/-- C10: the entry list produced by a filter pass depends only on the
original catalog and the query — running `filter(q1)` first changes
nothing about the list `filter(q2)` produces. -/
theorem C10_filter_stateless (scorer : String → String → Nat) (limit : Nat)
    (V delta : Int) (catalog : List Entry) (s : SelState) (q1 q2 : String) :
    (fuzzy_finding scorer limit V delta catalog
        (fuzzy_finding scorer limit V delta catalog s q1) q2).entries
      = (fuzzy_finding scorer limit V delta catalog s q2).entries
    ∧ (fuzzy_finding scorer limit V delta catalog s q2).entries
      = entriesFor scorer limit catalog q2 := by
  refine ⟨?_, ?_⟩ <;> simp [fuzzy_finding, move_selection_entries]

end Roentgenium
